import Mathlib

/-!
Verification of the PDF-Fusion document assembly and placement core.

The definitions below are a shallow embedding of the TypeScript source:
- `src/components/MergeMode.tsx` (merge engine `createMergedPdfBlob`,
  batch normalizer `processAndAddFiles`, filename rule in `runMergeProcess`),
- `src/components/SignMode.tsx` (placement mapper in `handleSign`, drag
  clamping in `handleMouseMove`, preview sizing `visualWidth`, stamping
  output shape, and the page editor operations `rotatePage`, `selectAll`,
  `deselectAll`).

Pages carry an opaque content identifier and an intrinsic rotation;
coordinates are rationals; JavaScript objects `Record<number, PageConfig>`
are embedded as functions `Nat → Option PageConfig`; operations that throw
a TypeError in JavaScript (reading a property of `undefined`) are embedded
as `Option`-valued functions returning `none` at the faulting input.
-/

/-- Per-page configuration, from `PageConfig` in `SignMode.tsx`
(`{selected: boolean, rotation: number}`). -/
structure PageConfig where
  selected : Bool
  rotation : Int
  deriving DecidableEq, Repr

/-- A page of a normalized document: an opaque content reference and the
intrinsic rotation (degrees) readable via `page.getRotation().angle`. -/
structure Page where
  content : Nat
  rotation : Int
  deriving DecidableEq, Repr

/-- Embedding of the JavaScript object `Record<number, PageConfig>`:
a partial map from page index to configuration. -/
def ConfigMap : Type := Nat → Option PageConfig

/-- Functional update of a configuration map at one index
(the JavaScript assignment `config[i] = c`). -/
def updateMap (m : ConfigMap) (i : Nat) (c : PageConfig) : ConfigMap :=
  fun j => if j = i then some c else m j

/-- A document in the merge list, from `AppFile` in `MergeMode.tsx`:
its pages and its optional page configuration record. -/
structure AppFile where
  pages : List Page
  pageConfig : Option ConfigMap

/-- Rotation application of `createMergedPdfBlob`: when the configured
rotation is nonzero (JavaScript truthiness of `config.rotation`) the page
rotation is set to `currentRotation + config.rotation`, with no reduction
modulo 360. -/
def applyRotation (c : PageConfig) (p : Page) : Page :=
  if c.rotation ≠ 0 then { p with rotation := p.rotation + c.rotation } else p

/-- The per-page branch of the `copiedPages.forEach` loop in
`createMergedPdfBlob`: a missing record or missing entry leaves the page
as-is (and keeps it); an entry with `selected = false` drops the page;
otherwise the configured rotation is applied. -/
def mergeStep (cfg : Option ConfigMap) (i : Nat) (p : Page) : Option Page :=
  match cfg with
  | none => some p
  | some m =>
    match m i with
    | none => some p
    | some c => if c.selected then some (applyRotation c p) else none

/-- The `forEach` loop of `createMergedPdfBlob` over one document's pages,
starting at page index `i`. -/
def mergeFrom (cfg : Option ConfigMap) (i : Nat) : List Page → List Page
  | [] => []
  | p :: ps =>
    match mergeStep cfg i p with
    | none => mergeFrom cfg (i + 1) ps
    | some q => q :: mergeFrom cfg (i + 1) ps

/-- Pages contributed to the merged output by one document. -/
def mergeDoc (f : AppFile) : List Page :=
  mergeFrom f.pageConfig 0 f.pages

/-- The page sequence of the merged output of `createMergedPdfBlob`:
documents in list order, each contributing its surviving pages. -/
def createMergedPdfBlob (files : List AppFile) : List Page :=
  (files.map mergeDoc).flatten

/-- Resolved selection of a page index: an absent record or absent entry
counts as selected (the page is added unconditionally in the source). -/
def selectedAt (cfg : Option ConfigMap) (i : Nat) : Bool :=
  match cfg with
  | none => true
  | some m =>
    match m i with
    | none => true
    | some c => c.selected

/-- The transformed page that index `i` would contribute if kept. -/
def outPage (cfg : Option ConfigMap) (i : Nat) (p : Page) : Page :=
  match cfg with
  | none => p
  | some m =>
    match m i with
    | none => p
    | some c => applyRotation c p

/-- Number of page indices of a document whose resolved configuration is
selected. -/
def countSelected (f : AppFile) : Nat :=
  ((List.range f.pages.length).filter (fun i => selectedAt f.pageConfig i)).length

/-- The `rotatePage` handler of `PageEditorModal` in `SignMode.tsx`:
`config[i] = {...config[i], rotation: (config[i].rotation + 90) % 360}`.
Reading `.rotation` of a missing entry throws in JavaScript, embedded as
`none`. -/
def rotatePage (m : ConfigMap) (i : Nat) : Option ConfigMap :=
  match m i with
  | none => none
  | some c => some (updateMap m i { c with rotation := (c.rotation + 90) % 360 })

/-- Four successive applications of `rotatePage` at the same index. -/
def rotateFour (m : ConfigMap) (i : Nat) : Option ConfigMap :=
  (((rotatePage m i).bind (rotatePage · i)).bind (rotatePage · i)).bind (rotatePage · i)

/-- The shared loop of `selectAll` / `deselectAll` in `PageEditorModal`:
for `i` in `[0, n)` execute `newConfig[i].selected = b`.  Index `n - 1` is
processed last; reading `.selected` of a missing entry throws in
JavaScript, embedded as `none`. -/
def setAllSel (b : Bool) (m : ConfigMap) : Nat → Option ConfigMap
  | 0 => some m
  | n + 1 =>
    match setAllSel b m n with
    | none => none
    | some m' =>
      match m' n with
      | none => none
      | some c => some (updateMap m' n { c with selected := b })

/-- The `selectAll` handler of `PageEditorModal`. -/
def selectAll (m : ConfigMap) (numPages : Nat) : Option ConfigMap :=
  setAllSel true m numPages

/-- The `deselectAll` handler of `PageEditorModal`. -/
def deselectAll (m : ConfigMap) (numPages : Nat) : Option ConfigMap :=
  setAllSel false m numPages

/-- The eager initialization performed by `PageEditorModal` when the
incoming configuration record is empty: every index in `[0, numPages)`
receives the default entry `{selected: true, rotation: 0}`. -/
def materializeConfig (numPages : Nat) : ConfigMap :=
  fun i => if i < numPages then some { selected := true, rotation := 0 } else none

example : mergeDoc { pages := [⟨0, 0⟩, ⟨1, 0⟩], pageConfig := none } = [⟨0, 0⟩, ⟨1, 0⟩] := rfl

example :
    mergeDoc { pages := [⟨0, 0⟩, ⟨1, 0⟩, ⟨2, 0⟩],
               pageConfig := some (fun i => if i = 1 then some ⟨false, 0⟩ else none) } =
      [⟨0, 0⟩, ⟨2, 0⟩] := by decide

example : selectAll (fun _ => none) 1 = none := rfl

example :
    (selectAll (materializeConfig 2) 2).isSome = true := by decide

lemma mergeStep_eq (cfg : Option ConfigMap) (i : Nat) (p : Page) :
    mergeStep cfg i p = if selectedAt cfg i then some (outPage cfg i p) else none := by
  cases cfg with
  | none => rfl
  | some m =>
    simp only [mergeStep, selectedAt, outPage]
    cases m i with
    | none => rfl
    | some c => cases hc : c.selected <;> simp [hc]

lemma mergeFrom_eq (cfg : Option ConfigMap) :
    ∀ (ps : List Page) (i : Nat),
      mergeFrom cfg i ps =
        ((ps.enumFrom i).filter (fun ip => selectedAt cfg ip.1)).map
          (fun ip => outPage cfg ip.1 ip.2)
  | [], _ => rfl
  | p :: ps, i => by
    rw [mergeFrom, mergeStep_eq]
    cases hsel : selectedAt cfg i <;>
      simp [List.enumFrom, List.filter, hsel, mergeFrom_eq cfg ps (i + 1)]

lemma mergeFrom_length (cfg : Option ConfigMap) :
    ∀ (ps : List Page) (i : Nat),
      (mergeFrom cfg i ps).length =
        ((List.range ps.length).filter (fun j => selectedAt cfg (i + j))).length
  | [], _ => rfl
  | p :: ps, i => by
    rw [mergeFrom, mergeStep_eq, List.length_cons, List.range_succ_eq_map]
    have hmap : (((List.range ps.length).map (· + 1)).filter
        (fun j => selectedAt cfg (i + j))).length =
        ((List.range ps.length).filter (fun j => selectedAt cfg (i + 1 + j))).length := by
      rw [List.filter_map, List.length_map]
      have : ∀ j ∈ List.range ps.length,
          ((fun j => selectedAt cfg (i + j)) ∘ (· + 1)) j =
            (fun j => selectedAt cfg (i + 1 + j)) j := by
        intro j _
        simp only [Function.comp]
        congr 1
        omega
      rw [List.filter_congr this]
    cases hsel : selectedAt cfg i <;>
      simp [hsel, mergeFrom_length cfg ps (i + 1), hmap, Nat.add_zero]

lemma mergeDoc_eq (f : AppFile) :
    mergeDoc f =
      ((f.pages.enum.filter (fun ip => selectedAt f.pageConfig ip.1)).map
        (fun ip => outPage f.pageConfig ip.1 ip.2)) := by
  rw [mergeDoc, mergeFrom_eq]
  rfl

lemma mergeDoc_length (f : AppFile) : (mergeDoc f).length = countSelected f := by
  rw [mergeDoc, mergeFrom_length, countSelected]
  simp

lemma mergeDoc_length_all (f : AppFile)
    (h : ∀ i, selectedAt f.pageConfig i = true) :
    (mergeDoc f).length = f.pages.length := by
  rw [mergeDoc_length, countSelected, List.filter_eq_self.2 (fun a _ => h a)]
  exact List.length_range _

/-- C1. The merged output is the concatenation, in document list order, of
each document's selected pages in ascending page-index order (each with its
configured transformation applied); the output page count is the sum over
documents of the number of page indices whose resolved configuration is
selected (a missing entry counting as selected); and when every page of
every document resolves to selected, the output page count is the sum of
the input page counts. -/
theorem merge_order_and_count (files : List AppFile) :
    createMergedPdfBlob files =
      (files.map (fun f =>
        ((f.pages.enum.filter (fun ip => selectedAt f.pageConfig ip.1)).map
          (fun ip => outPage f.pageConfig ip.1 ip.2)))).flatten
    ∧ (createMergedPdfBlob files).length = (files.map countSelected).sum
    ∧ ((∀ f ∈ files, ∀ i, selectedAt f.pageConfig i = true) →
        (createMergedPdfBlob files).length =
          (files.map (fun f => f.pages.length)).sum) := by
  refine ⟨?_, ?_, ?_⟩
  · rw [createMergedPdfBlob]
    congr 1
    exact List.map_congr_left (fun f _ => mergeDoc_eq f)
  · rw [createMergedPdfBlob, List.length_flatten, List.map_map]
    congr 1
    exact List.map_congr_left (fun f _ => mergeDoc_length f)
  · intro hall
    rw [createMergedPdfBlob, List.length_flatten, List.map_map]
    congr 1
    exact List.map_congr_left (fun f hf => mergeDoc_length_all f (hall f hf))

/-- Concrete one-page document with no configuration record. -/
def docOnePage : AppFile := { pages := [⟨10, 0⟩], pageConfig := none }

/-- Concrete two-page document with no configuration record. -/
def docTwoPages : AppFile := { pages := [⟨20, 0⟩, ⟨21, 0⟩], pageConfig := none }

/-- Witness for C1: merging a one-page document and a two-page document,
all pages selected, yields 1 + 2 = 3 pages. -/
theorem merge_order_and_count_witness :
    (createMergedPdfBlob [docOnePage, docTwoPages]).length = 3 := by
  have h := (merge_order_and_count [docOnePage, docTwoPages]).2.2
  have hall : ∀ f ∈ [docOnePage, docTwoPages], ∀ i, selectedAt f.pageConfig i = true := by
    intro f hf i
    fin_cases hf <;> rfl
  rw [h hall]
  rfl

lemma mergeFrom_congr (c1 c2 : Option ConfigMap) :
    ∀ (ps : List Page) (i : Nat),
      (∀ j, i ≤ j → ∀ p, mergeStep c1 j p = mergeStep c2 j p) →
      mergeFrom c1 i ps = mergeFrom c2 i ps
  | [], _, _ => rfl
  | p :: ps, i, h => by
    rw [mergeFrom, mergeFrom, h i le_rfl p,
      mergeFrom_congr c1 c2 ps (i + 1) (fun j hj q => h j (by omega) q)]

lemma eraseIdx_append_left {α : Type} :
    ∀ (l L : List α) (i : Nat), i < l.length →
      (l ++ L).eraseIdx i = l.eraseIdx i ++ L
  | a :: l, L, 0, _ => by simp
  | a :: l, L, i + 1, h => by
    simp only [List.cons_append, List.eraseIdx_cons_succ]
    rw [eraseIdx_append_left l L i (by simpa using h)]

lemma eraseIdx_append_right {α : Type} :
    ∀ (L l : List α) (j : Nat),
      (L ++ l).eraseIdx (L.length + j) = L ++ l.eraseIdx j
  | [], l, j => by simp
  | a :: L, l, j => by
    simp only [List.cons_append, List.length_cons]
    rw [show L.length + 1 + j = (L.length + j) + 1 from by omega,
      List.eraseIdx_cons_succ, eraseIdx_append_right L l j]


lemma mergeFrom_cons_sel (cfg : Option ConfigMap) (i : Nat) (p : Page) (ps : List Page)
    (h : selectedAt cfg i = true) :
    mergeFrom cfg i (p :: ps) = outPage cfg i p :: mergeFrom cfg (i + 1) ps := by
  rw [mergeFrom, mergeStep_eq, h]
  rfl

lemma mergeFrom_cons_nosel (cfg : Option ConfigMap) (i : Nat) (p : Page) (ps : List Page)
    (h : mergeStep cfg i p = none) :
    mergeFrom cfg i (p :: ps) = mergeFrom cfg (i + 1) ps := by
  rw [mergeFrom, h]

lemma mergeFrom_skip (m : ConfigMap) (cfgO : Option ConfigMap) (t : Nat)
    (hall : ∀ j, selectedAt cfgO j = true)
    (hskip : ∀ p, mergeStep (some m) t p = none)
    (hagree : ∀ j, j ≠ t → ∀ p, mergeStep (some m) j p = mergeStep cfgO j p) :
    ∀ (ps : List Page) (i : Nat), i ≤ t → t < i + ps.length →
      mergeFrom (some m) i ps = (mergeFrom cfgO i ps).eraseIdx (t - i)
  | [], i, hle, hlt => by
    simp only [List.length_nil] at hlt
    omega
  | p :: ps, i, hle, hlt => by
    by_cases hit : i = t
    · subst hit
      rw [mergeFrom_cons_nosel _ _ _ _ (hskip p), mergeFrom_cons_sel _ _ _ _ (hall i)]
      simp only [Nat.sub_self, List.eraseIdx_cons_zero]
      exact mergeFrom_congr _ _ ps (i + 1) (fun j hj q => hagree j (by omega) q)
    · have hlt' : i < t := by omega
      have hstep : mergeStep (some m) i p = some (outPage cfgO i p) := by
        rw [hagree i (by omega) p, mergeStep_eq, hall i]
        rfl
      rw [mergeFrom, hstep, mergeFrom_cons_sel _ _ _ _ (hall i)]
      obtain ⟨d, hd⟩ : ∃ d, t - i = d + 1 := ⟨t - i - 1, by omega⟩
      rw [hd, List.eraseIdx_cons_succ]
      have hrec := mergeFrom_skip m cfgO t hall hskip hagree ps (i + 1)
        (by omega) (by simp only [List.length_cons] at hlt; omega)
      rw [hrec, show t - (i + 1) = d from by omega]

lemma mergeDoc_deselect (f f' : AppFile) (m : ConfigMap) (t : Nat)
    (hpages : f'.pages = f.pages) (hcfg : f'.pageConfig = some m)
    (hall : ∀ j, selectedAt f.pageConfig j = true)
    (ht : t < f.pages.length)
    (hskip : ∀ p, mergeStep (some m) t p = none)
    (hagree : ∀ j, j ≠ t → ∀ p, mergeStep (some m) j p = mergeStep f.pageConfig j p) :
    mergeDoc f' = (mergeDoc f).eraseIdx t := by
  rw [mergeDoc, mergeDoc, hpages, hcfg]
  have := mergeFrom_skip m f.pageConfig t hall hskip hagree f.pages 0
    (Nat.zero_le t) (by simpa using ht)
  simpa using this

lemma createMerged_cons (f : AppFile) (rest : List AppFile) :
    createMergedPdfBlob (f :: rest) = mergeDoc f ++ createMergedPdfBlob rest := by
  simp [createMergedPdfBlob]

lemma createMerged_set_eraseIdx :
    ∀ (files : List AppFile) (k : Nat) (hk : k < files.length) (f' : AppFile) (m : ConfigMap)
      (t : Nat),
      (∀ f ∈ files, ∀ i, selectedAt f.pageConfig i = true) →
      f'.pages = (files.get ⟨k, hk⟩).pages →
      f'.pageConfig = some m →
      t < (files.get ⟨k, hk⟩).pages.length →
      (∀ p, mergeStep (some m) t p = none) →
      (∀ j, j ≠ t → ∀ p, mergeStep (some m) j p = mergeStep (files.get ⟨k, hk⟩).pageConfig j p) →
      createMergedPdfBlob (files.set k f')
        = (createMergedPdfBlob files).eraseIdx
            ((((files.take k).map (fun f => f.pages.length)).sum) + t)
  | f :: rest, 0, hk, f', m, t, hall, hpages, hcfg, ht, hskip, hagree => by
    simp only [List.get] at ht hagree hpages
    rw [List.set_cons_zero, createMerged_cons, createMerged_cons,
      mergeDoc_deselect f f' m t hpages hcfg (hall f (by simp)) ht hskip hagree]
    have hlen : t < (mergeDoc f).length := by
      rw [mergeDoc_length_all f (hall f (by simp))]; exact ht
    simp only [List.take_zero, List.map_nil, List.sum_nil, Nat.zero_add]
    rw [eraseIdx_append_left _ _ t hlen]
  | f :: rest, k + 1, hk, f', m, t, hall, hpages, hcfg, ht, hskip, hagree => by
    rw [List.set_cons_succ, createMerged_cons, createMerged_cons]
    have hk' : k < rest.length := by simpa using hk
    have hget : ((f :: rest).get ⟨k + 1, hk⟩) = rest.get ⟨k, hk'⟩ := List.get_cons_succ
    rw [hget] at hpages ht hagree
    have ih := createMerged_set_eraseIdx rest k hk' f' m t
      (fun g hg => hall g (by simp [hg])) hpages hcfg ht hskip hagree
    rw [ih]
    have hra := eraseIdx_append_right (mergeDoc f) (createMergedPdfBlob rest)
      ((((rest.take k).map (fun f => f.pages.length)).sum) + t)
    rw [← hra, mergeDoc_length_all f (hall f (by simp))]
    congr 1
    simp only [List.take_succ_cons, List.map_cons, List.sum_cons]
    omega

/-- C3. Starting from a document list whose pages all resolve to selected,
replacing document `k`'s configuration by one that deselects exactly page
`t` (entry `t` has `selected = false`, every other index behaves exactly as
before) removes exactly that page from the merged output: the new output is
the old output with the element at flat position
`(sum of page counts of the first k documents) + t` erased, so every other
page keeps its relative order, and the output page count drops by exactly
one. -/
theorem deselect_removes_one
    (files : List AppFile) (k t : Nat) (f' : AppFile) (m : ConfigMap) (c : PageConfig)
    (hk : k < files.length)
    (hall : ∀ f ∈ files, ∀ i, selectedAt f.pageConfig i = true)
    (hpages : f'.pages = (files.get ⟨k, hk⟩).pages)
    (hcfg : f'.pageConfig = some m)
    (ht : t < (files.get ⟨k, hk⟩).pages.length)
    (hdesel : m t = some c) (hsel : c.selected = false)
    (hagree : ∀ j, j ≠ t → ∀ p,
      mergeStep (some m) j p = mergeStep (files.get ⟨k, hk⟩).pageConfig j p) :
    createMergedPdfBlob (files.set k f')
        = (createMergedPdfBlob files).eraseIdx
            ((((files.take k).map (fun f => f.pages.length)).sum) + t)
    ∧ (createMergedPdfBlob (files.set k f')).length
        = (createMergedPdfBlob files).length - 1 := by
  have hskip : ∀ p, mergeStep (some m) t p = none := by
    intro p
    simp [mergeStep, hdesel, hsel]
  have hmain := createMerged_set_eraseIdx files k hk f' m t hall hpages hcfg ht hskip hagree
  refine ⟨hmain, ?_⟩
  have hidx : (((files.take k).map (fun f => f.pages.length)).sum) + t
      < (createMergedPdfBlob files).length := by
    rw [(merge_order_and_count files).2.2 hall]
    have hsplit : (files.map (fun f => f.pages.length)).sum
        = ((files.take k).map (fun f => f.pages.length)).sum
          + ((files.drop k).map (fun f => f.pages.length)).sum := by
      rw [← List.sum_append, ← List.map_append, List.take_append_drop]
    have hdrop : files.drop k = files.get ⟨k, hk⟩ :: files.drop (k + 1) := by
      rw [List.drop_eq_getElem_cons hk]
      rfl
    rw [hsplit, hdrop]
    simp only [List.map_cons, List.sum_cons]
    omega
  rw [hmain, List.length_eraseIdx, if_pos hidx]

/-- Configuration record that deselects page index 1 and has no other
entries. -/
def deselCfg1 : ConfigMap :=
  fun j => if j = 1 then some { selected := false, rotation := 0 } else none

/-- The two-page document with page 1 deselected. -/
def docTwoPagesDesel : AppFile :=
  { pages := [⟨20, 0⟩, ⟨21, 0⟩], pageConfig := some deselCfg1 }

/-- Witness for C3: deselecting page 1 of a two-page document erases
exactly position 1 of the output, leaving a one-page output. -/
theorem deselect_removes_one_witness :
    createMergedPdfBlob ([docTwoPages].set 0 docTwoPagesDesel)
      = (createMergedPdfBlob [docTwoPages]).eraseIdx 1
    ∧ (createMergedPdfBlob ([docTwoPages].set 0 docTwoPagesDesel)).length
      = (createMergedPdfBlob [docTwoPages]).length - 1 := by
  have hk : 0 < [docTwoPages].length := by decide
  have h := deselect_removes_one [docTwoPages] 0 1 docTwoPagesDesel deselCfg1
    { selected := false, rotation := 0 }
    hk
    (by intro f hf i; fin_cases hf; rfl)
    rfl rfl
    one_lt_two
    rfl rfl
    (by
      intro j hj p
      simp [mergeStep, deselCfg1, hj, docTwoPages])
  simpa using h

lemma updateMap_same (m : ConfigMap) (i : Nat) (c : PageConfig) :
    updateMap m i c i = some c := by
  simp [updateMap]

lemma updateMap_updateMap (m : ConfigMap) (i : Nat) (a b : PageConfig) :
    updateMap (updateMap m i a) i b = updateMap m i b := by
  funext j
  by_cases hj : j = i <;> simp [updateMap, hj]

/-- C2 (amended). In the merge, the rotation written to an output page is
`intrinsic + configured` with no reduction (hence congruent to
`(intrinsic + configured) mod 360`, though not always equal to that
representative); and `rotatePage` on an existing entry sets its rotation to
`(current + 90) mod 360`, so four applications of `rotatePage` restore the
configuration exactly whenever the current rotation lies in `[0, 360)`. -/
theorem rotation_semantics :
    (∀ (c : PageConfig) (p : Page),
      (applyRotation c p).rotation = p.rotation + c.rotation
      ∧ (applyRotation c p).rotation % 360 = (p.rotation + c.rotation) % 360)
    ∧ (∀ (m : ConfigMap) (i : Nat) (c : PageConfig), m i = some c →
        rotatePage m i = some (updateMap m i { c with rotation := (c.rotation + 90) % 360 }))
    ∧ (∀ (m : ConfigMap) (i : Nat) (c : PageConfig), m i = some c →
        0 ≤ c.rotation → c.rotation < 360 →
        rotateFour m i = some m) := by
  refine ⟨?_, ?_, ?_⟩
  · intro c p
    constructor
    · by_cases hr : c.rotation = 0 <;> simp [applyRotation, hr]
    · by_cases hr : c.rotation = 0 <;> simp [applyRotation, hr]
  · intro m i c hmi
    simp [rotatePage, hmi]
  · intro m i c hmi h0 h1
    obtain ⟨sel, r⟩ := c
    have e1 : rotatePage m i = some (updateMap m i ⟨sel, (r + 90) % 360⟩) := by
      simp [rotatePage, hmi]
    have estep : ∀ a : Int, rotatePage (updateMap m i ⟨sel, a⟩) i
        = some (updateMap m i ⟨sel, (a + 90) % 360⟩) := by
      intro a
      simp [rotatePage, updateMap_same, updateMap_updateMap]
    rw [rotateFour, e1, Option.some_bind, estep, Option.some_bind, estep,
      Option.some_bind, estep]
    have hfix : updateMap m i ⟨sel, (((((r + 90) % 360) + 90) % 360 + 90) % 360 + 90) % 360⟩
        = m := by
      funext j
      by_cases hj : j = i
      · subst hj
        have h0' : (0 : Int) ≤ r := h0
        have h1' : r < 360 := h1
        have hrot : (((((r + 90) % 360) + 90) % 360 + 90) % 360 + 90) % 360 = r := by
          omega
        rw [updateMap_same, hmi, hrot]
      · simp [updateMap, hj]
    rw [hfix]

/-- Configuration record with a single entry at index 0:
selected, rotation 90. -/
def rot90Cfg : ConfigMap :=
  fun j => if j = 0 then some { selected := true, rotation := 90 } else none

/-- One-page document whose page has intrinsic rotation 270, merged with a
configured rotation of 90. -/
def docRot270 : AppFile :=
  { pages := [⟨0, 270⟩], pageConfig := some rot90Cfg }

/-- Counterexample to C2 as stated: for an intrinsic rotation of 270 and a
configured rotation of 90 the merge writes rotation 360 (the unreduced sum),
while `(270 + 90) mod 360 = 0`; the written value is not the mod-360
representative. -/
theorem rotation_mod_counterexample :
    (createMergedPdfBlob [docRot270]).map Page.rotation = [360]
    ∧ ((270 + 90 : Int) % 360 = 0)
    ∧ (360 : Int) ≠ 0 := by
  refine ⟨by decide, by decide, by decide⟩

/-- Witness for C2 (amended), at concrete inputs: the merged rotation of a
page with intrinsic rotation 270 under configured rotation 90 is the sum
270 + 90; `rotatePage` at an existing entry with rotation 90 produces the
entry with rotation `(90 + 90) mod 360`; and four `rotatePage` applications
restore the configuration record exactly. -/
theorem rotation_semantics_witness :
    (applyRotation ⟨true, 90⟩ ⟨0, 270⟩).rotation = 270 + 90
    ∧ rotatePage rot90Cfg 0
        = some (updateMap rot90Cfg 0 ⟨true, (90 + 90) % 360⟩)
    ∧ rotateFour rot90Cfg 0 = some rot90Cfg :=
  ⟨(rotation_semantics.1 ⟨true, 90⟩ ⟨0, 270⟩).1,
   rotation_semantics.2.1 rot90Cfg 0 ⟨true, 90⟩ rfl,
   rotation_semantics.2.2 rot90Cfg 0 ⟨true, 90⟩ rfl (by decide) (by decide)⟩

lemma setAllSel_eq (b : Bool) (m : ConfigMap) :
    ∀ n : Nat, (∀ i, i < n → (m i).isSome = true) →
      ∃ m', setAllSel b m n = some m'
        ∧ (∀ i, i < n → m' i = (m i).map (fun c => { c with selected := b }))
        ∧ (∀ i, n ≤ i → m' i = m i)
  | 0, _ => ⟨m, rfl, fun i hi => absurd hi (Nat.not_lt_zero i), fun _ _ => rfl⟩
  | n + 1, h => by
    obtain ⟨m₁, hm₁, hlt, hge⟩ := setAllSel_eq b m n (fun i hi => h i (by omega))
    obtain ⟨c, hc⟩ := Option.isSome_iff_exists.1 (h n (by omega))
    have hm₁n : m₁ n = some c := by rw [hge n le_rfl, hc]
    refine ⟨updateMap m₁ n { c with selected := b }, ?_, ?_, ?_⟩
    · simp [setAllSel, hm₁, hm₁n]
    · intro i hi
      by_cases hin : i = n
      · subst hin
        rw [updateMap_same, hc]
        rfl
      · rw [show updateMap m₁ n { c with selected := b } i = m₁ i from by
          simp [updateMap, hin], hlt i (by omega)]
    · intro i hi
      rw [show updateMap m₁ n { c with selected := b } i = m₁ i from by
        simp [updateMap]; omega, hge i (by omega)]

/-- C10 (amended). On a configuration record in which every index of
`[0, numPages)` has an entry — as guaranteed by the modal's eager
initialization of an empty record — `selectAll` and `deselectAll` succeed
and set the `selected` flag of every index in `[0, numPages)` to
true / false respectively, leaving rotations and out-of-range entries
untouched.  (On a record with a missing index in range they fault instead
of materializing a default; see the counterexample.) -/
theorem selectAll_deselectAll_on_populated (m : ConfigMap) (n : Nat)
    (h : ∀ i, i < n → (m i).isSome = true) :
    (∃ m', selectAll m n = some m'
      ∧ (∀ i, i < n → m' i = (m i).map (fun c => { c with selected := true }))
      ∧ (∀ i, n ≤ i → m' i = m i))
    ∧ (∃ m', deselectAll m n = some m'
      ∧ (∀ i, i < n → m' i = (m i).map (fun c => { c with selected := false }))
      ∧ (∀ i, n ≤ i → m' i = m i)) :=
  ⟨setAllSel_eq true m n h, setAllSel_eq false m n h⟩

/-- The empty configuration record. -/
def emptyConfig : ConfigMap := fun _ => none

/-- Counterexample to C10 as stated: on a record with no entry at index 0
and page count 1, `selectAll` and `deselectAll` do not materialize a
default entry — they fault (embedded as `none`, the JavaScript TypeError
of `newConfig[0].selected = ...`). -/
theorem selectAll_missing_entry_faults :
    selectAll emptyConfig 1 = none ∧ deselectAll emptyConfig 1 = none :=
  ⟨rfl, rfl⟩

/-- Witness for C10 (amended): on the fully materialized two-page record,
`selectAll` and `deselectAll` succeed. -/
theorem selectAll_deselectAll_on_populated_witness :
    (∃ m', selectAll (materializeConfig 2) 2 = some m'
      ∧ (∀ i, i < 2 → m' i = (materializeConfig 2 i).map (fun c => { c with selected := true }))
      ∧ (∀ i, 2 ≤ i → m' i = materializeConfig 2 i))
    ∧ (∃ m', deselectAll (materializeConfig 2) 2 = some m'
      ∧ (∀ i, i < 2 → m' i = (materializeConfig 2 i).map (fun c => { c with selected := false }))
      ∧ (∀ i, 2 ≤ i → m' i = materializeConfig 2 i)) :=
  selectAll_deselectAll_on_populated (materializeConfig 2) 2 (by decide)

/-- One normalization task of `processAndAddFiles`: a batch entry either
produces a processed document or rejects. -/
def NormResult (α : Type) : Type := Except Unit α

/-- The `Promise.all` join of `processAndAddFiles`: the results in
submission order, failing if any task failed. -/
def collectBatch {α : Type} : List (NormResult α) → Except Unit (List α)
  | [] => Except.ok []
  | Except.error e :: _ => Except.error e
  | Except.ok a :: rest => (collectBatch rest).map (fun l => a :: l)

/-- The state commit of `processAndAddFiles`: on success the new documents
are appended to the working list (`setFiles(prev => [...prev, ...newFiles])`);
on any failure the catch branch leaves the list unchanged. -/
def processAndAddFiles {α : Type} (prev : List α) (results : List (NormResult α)) : List α :=
  match collectBatch results with
  | Except.error _ => prev
  | Except.ok docs => prev ++ docs

lemma collectBatch_map_ok {α : Type} : ∀ docs : List α,
    collectBatch (docs.map Except.ok) = Except.ok docs
  | [] => rfl
  | a :: docs => by
    simp [collectBatch, collectBatch_map_ok docs, Except.map]

lemma collectBatch_error {α : Type} : ∀ results : List (NormResult α),
    (∃ e ∈ results, e = Except.error ()) →
    collectBatch results = Except.error ()
  | [], h => by simp at h
  | Except.error () :: rest, _ => rfl
  | Except.ok a :: rest, h => by
    obtain ⟨e, he, herr⟩ := h
    rw [List.mem_cons] at he
    rcases he with he | he
    · rw [herr] at he
      exact absurd he (by simp)
    · simp [collectBatch, collectBatch_error rest ⟨e, he, herr⟩, Except.map]

/-- C7. The normalization batch commit is all-or-nothing and order
preserving: if every task of the batch succeeds with documents `docs`
(indexed in submission order, as the `Promise.all` join returns them),
the working list becomes the old list with all of `docs` appended in that
order; if any task fails, the working list is unchanged. -/
theorem batch_commit_all_or_nothing {α : Type} (prev : List α)
    (results : List (NormResult α)) :
    (∀ docs : List α, results = docs.map Except.ok →
      processAndAddFiles prev results = prev ++ docs)
    ∧ ((∃ e ∈ results, e = Except.error ()) →
      processAndAddFiles prev results = prev) := by
  constructor
  · intro docs hdocs
    rw [processAndAddFiles, hdocs, collectBatch_map_ok]
  · intro hfail
    rw [processAndAddFiles, collectBatch_error results hfail]

/-- Witness for C7: a fully successful batch of two documents is appended
in submission order; a batch containing a failure leaves the list as it
was. -/
theorem batch_commit_all_or_nothing_witness :
    processAndAddFiles [1, 2] [Except.ok 3, Except.ok 4] = [1, 2, 3, 4]
    ∧ processAndAddFiles [1, 2] [Except.ok 3, Except.error ()] = [1, 2] :=
  ⟨(batch_commit_all_or_nothing [1, 2] [Except.ok 3, Except.ok 4]).1 [3, 4] rfl,
   (batch_commit_all_or_nothing [1, 2] [Except.ok 3, Except.error ()]).2
     ⟨Except.error (), by simp, rfl⟩⟩

/-- JavaScript whitespace recognized by `String.prototype.trim` (the ASCII
part, which is all the merge filename rule relies on). -/
def isJsSpace (c : Char) : Bool :=
  (c == ' ') || (c == '\t') || (c == '\n') || (c == '\r') || (c == '\x0b') || (c == '\x0c')

/-- Leading-whitespace removal of `trim()`. -/
def trimLeft (l : List Char) : List Char := l.dropWhile isJsSpace

/-- Trailing-whitespace removal of `trim()`. -/
def trimRightJs : List Char → List Char
  | [] => []
  | a :: l =>
    match trimRightJs l with
    | [] => if isJsSpace a then [] else [a]
    | b :: m => a :: b :: m

/-- The `mergedFileName.trim()` call of `runMergeProcess`. -/
def jsTrim (l : List Char) : List Char := trimRightJs (trimLeft l)

/-- The `finalName.toLowerCase().endsWith('.pdf')` test of
`runMergeProcess`. -/
def endsWithPdfCI (l : List Char) : Bool :=
  List.isSuffixOf ".pdf".data (l.map Char.toLower)

/-- The fallback literal of `runMergeProcess`. -/
def defaultMergedName : List Char := "merged-document.pdf".data

/-- The extension step of `runMergeProcess`: append `.pdf` unless the name
already ends with it, case-insensitively. -/
def ensureExt (t : List Char) : List Char :=
  if endsWithPdfCI t then t else t ++ ".pdf".data

/-- The full merge filename rule of `runMergeProcess`: trim, substitute the
default on empty, ensure the `.pdf` extension. -/
def finalNameRule (s : List Char) : List Char :=
  ensureExt (if jsTrim s = [] then defaultMergedName else jsTrim s)

lemma dropWhile_twice (p : Char → Bool) :
    ∀ l : List Char, (l.dropWhile p).dropWhile p = l.dropWhile p
  | [] => rfl
  | a :: l => by
    rw [List.dropWhile_cons]
    cases h : p a
    · rw [if_neg (by simp [h]), List.dropWhile_cons, if_neg (by simp [h])]
    · rw [if_pos rfl]
      exact dropWhile_twice p l

lemma dropWhile_length_le (p : Char → Bool) :
    ∀ l : List Char, (l.dropWhile p).length ≤ l.length
  | [] => le_refl 0
  | a :: l => by
    rw [List.dropWhile_cons]
    cases h : p a
    · simp
    · rw [if_pos rfl]
      exact le_trans (dropWhile_length_le p l) (by simp)

lemma trimLeft_head_false {a : Char} {l : List Char}
    (h : trimLeft (a :: l) = a :: l) : isJsSpace a = false := by
  cases hs : isJsSpace a
  · rfl
  · exfalso
    rw [trimLeft, List.dropWhile_cons, if_pos hs] at h
    have hle := dropWhile_length_le isJsSpace l
    rw [h] at hle
    simp at hle

lemma trimRightJs_twice : ∀ l : List Char, trimRightJs (trimRightJs l) = trimRightJs l
  | [] => rfl
  | a :: l => by
    cases h : trimRightJs l with
    | nil =>
      have e : trimRightJs (a :: l) = if isJsSpace a then [] else [a] := by
        rw [trimRightJs, h]
      rw [e]
      cases hs : isJsSpace a
      · simp [trimRightJs, hs]
      · rfl
    | cons b m =>
      have e : trimRightJs (a :: l) = a :: b :: m := by
        rw [trimRightJs, h]
      have ih := trimRightJs_twice l
      rw [h] at ih
      rw [e, trimRightJs, ih]

lemma trimRightJs_cons_shape (a : Char) (l : List Char) :
    trimRightJs (a :: l) = [] ∨ ∃ t, trimRightJs (a :: l) = a :: t := by
  rw [trimRightJs]
  cases trimRightJs l with
  | nil =>
    cases hs : isJsSpace a
    · exact Or.inr ⟨[], rfl⟩
    · exact Or.inl rfl
  | cons b m => exact Or.inr ⟨b :: m, rfl⟩

lemma trimLeft_trimRightJs (l : List Char) (h : trimLeft l = l) :
    trimLeft (trimRightJs l) = trimRightJs l := by
  cases l with
  | nil => rfl
  | cons a l =>
    have ha := trimLeft_head_false h
    rcases trimRightJs_cons_shape a l with he | ⟨t, he⟩
    · rw [he]
      rfl
    · rw [he, trimLeft, List.dropWhile_cons, if_neg (by simp [ha])]

lemma jsTrim_left_trimmed (l : List Char) : trimLeft (jsTrim l) = jsTrim l :=
  trimLeft_trimRightJs (trimLeft l) (dropWhile_twice isJsSpace l)

lemma jsTrim_twice (l : List Char) : jsTrim (jsTrim l) = jsTrim l := by
  show trimRightJs (trimLeft (jsTrim l)) = jsTrim l
  rw [jsTrim_left_trimmed]
  show trimRightJs (trimRightJs (trimLeft l)) = jsTrim l
  rw [trimRightJs_twice]
  rfl

lemma trimRightJs_append_last (c : Char) (hc : isJsSpace c = false) :
    ∀ l : List Char, trimRightJs (l ++ [c]) = l ++ [c]
  | [] => by simp [trimRightJs, hc]
  | a :: l => by
    rw [List.cons_append, trimRightJs, trimRightJs_append_last c hc l]
    cases hl : l ++ [c] with
    | nil => exact absurd hl (by simp)
    | cons b m => rfl

lemma trimLeft_append_self (t e : List Char) (ht : trimLeft t = t)
    (he : trimLeft e = e) : trimLeft (t ++ e) = t ++ e := by
  cases t with
  | nil => simpa using he
  | cons a t' =>
    have ha := trimLeft_head_false ht
    rw [List.cons_append, trimLeft, List.dropWhile_cons, if_neg (by simp [ha])]

lemma endsWithPdfCI_append (t : List Char) : endsWithPdfCI (t ++ ".pdf".data) = true := by
  rw [endsWithPdfCI, List.map_append,
    show ((".pdf".data : List Char).map Char.toLower) = ".pdf".data from by decide,
    List.isSuffixOf_iff_suffix]
  exact List.suffix_append _ _

lemma endsWithPdfCI_ne_nil (l : List Char) (h : endsWithPdfCI l = true) : l ≠ [] := by
  intro hl
  subst hl
  exact absurd h (by decide)

lemma jsTrim_append_pdf (s : List Char) :
    jsTrim (jsTrim s ++ ".pdf".data) = jsTrim s ++ ".pdf".data := by
  show trimRightJs (trimLeft (jsTrim s ++ ".pdf".data)) = jsTrim s ++ ".pdf".data
  rw [trimLeft_append_self _ _ (jsTrim_left_trimmed s) (by decide)]
  rw [show (String.data ".pdf") = ".pd".data ++ ['f'] from by decide, ← List.append_assoc]
  exact trimRightJs_append_last 'f' (by decide) _

lemma jsTrim_default : jsTrim defaultMergedName = defaultMergedName := by decide

lemma endsWith_default : endsWithPdfCI defaultMergedName = true := by decide

lemma finalNameRule_fixed (r : List Char) (hr : jsTrim r = r)
    (hpdf : endsWithPdfCI r = true) : finalNameRule r = r := by
  have hne : r ≠ [] := endsWithPdfCI_ne_nil r hpdf
  rw [finalNameRule, hr, if_neg hne, ensureExt, if_pos hpdf]

/-- C8. The merge filename rule of `runMergeProcess` (trim; substitute the
default name when empty; append the `.pdf` extension unless already present
case-insensitively) is idempotent, and its result always ends in the
`.pdf` extension (case-insensitively). -/
theorem finalNameRule_idem_and_pdf (s : List Char) :
    finalNameRule (finalNameRule s) = finalNameRule s
    ∧ endsWithPdfCI (finalNameRule s) = true := by
  by_cases h0 : jsTrim s = []
  · have e : finalNameRule s = defaultMergedName := by
      rw [finalNameRule, if_pos h0, ensureExt, if_pos endsWith_default]
    refine ⟨?_, ?_⟩
    · rw [e]
      exact finalNameRule_fixed defaultMergedName jsTrim_default endsWith_default
    · rw [e]
      exact endsWith_default
  · by_cases h1 : endsWithPdfCI (jsTrim s) = true
    · have e : finalNameRule s = jsTrim s := by
        rw [finalNameRule, if_neg h0, ensureExt, if_pos h1]
      refine ⟨?_, ?_⟩
      · rw [e]
        exact finalNameRule_fixed (jsTrim s) (jsTrim_twice s) h1
      · rw [e]
        exact h1
    · have e : finalNameRule s = jsTrim s ++ ".pdf".data := by
        rw [finalNameRule, if_neg h0, ensureExt, if_neg h1]
      refine ⟨?_, ?_⟩
      · rw [e]
        exact finalNameRule_fixed _ (jsTrim_append_pdf s) (endsWithPdfCI_append _)
      · rw [e]
        exact endsWithPdfCI_append _

/-- The interactive placement of `handleSign` in `SignMode.tsx` for one
target page of size `(Wt, Ht)`: fractions of the preview canvas are taken
from the stored drag position and rescaled to the page, with the vertical
flip `y = Ht - fy * Ht - ah` where `ah = sigH * s` is the scaled asset
height (`embeddedImage.scale(signatureScale)`). -/
def signaturePlacement (canvasW canvasH dragX dragY sigH s Wt Ht : ℚ) : ℚ × ℚ :=
  let rectPercentageX := dragX / canvasW
  let rectPercentageY := dragY / canvasH
  (rectPercentageX * Wt, Ht - rectPercentageY * Ht - sigH * s)

/-- The per-page loop of `handleSign`: every processed page receives a draw
rectangle with the placement origin and the footprint
`(sigW * s, sigH * s)`, with the same scale `s` for every page. -/
def handleSignStamps (pages : List (ℚ × ℚ))
    (canvasW canvasH dragX dragY sigW sigH s : ℚ) : List ((ℚ × ℚ) × ℚ × ℚ) :=
  pages.map (fun wh =>
    (signaturePlacement canvasW canvasH dragX dragY sigH s wh.1 wh.2, sigW * s, sigH * s))

/-- C4. In interactive placement, for every target page of size
`(Wt, Ht)` the draw rectangle has origin `(fx * Wt, Ht - fy * Ht - ah)`
with `fx = dragX / W`, `fy = dragY / H` the preview fractions, and
footprint `(aw, ah) = (sigW * s, sigH * s)` with the single user-chosen
scale `s` applied identically to every target page. -/
theorem placement_formula (pages : List (ℚ × ℚ)) (cW cH dX dY sW sH s : ℚ) :
    handleSignStamps pages cW cH dX dY sW sH s
      = pages.map (fun wh =>
          (((dX / cW) * wh.1, wh.2 - (dY / cH) * wh.2 - sH * s), sW * s, sH * s)) := by
  simp [handleSignStamps, signaturePlacement]

/-- The preview width of the signature overlay (`visualWidth` in
`SignMode.tsx`): the page-space width `sigW * scale` rescaled by the
canvas-to-reference-page ratio. -/
def visualWidth (sigW scale cW pW : ℚ) : ℚ := sigW * scale * (cW / pW)

/-- The preview height of the signature overlay, derived from the width by
the intrinsic aspect ratio (`visualWidth * (sigH / sigW)`). -/
def visualHeight (vW sigW sigH : ℚ) : ℚ := vW * (sigH / sigW)

/-- A drag position whose footprint is centered in the preview: the
pointer sits at the canvas center and `handleMouseMove` subtracts half the
visual footprint. -/
def centeredDragPos (cW cH vW vH : ℚ) : ℚ × ℚ := (cW / 2 - vW / 2, cH / 2 - vH / 2)

/-- Counterexample to C5 as stated: with a 100×100 reference page rendered
1:1 on a 100×100 canvas, a 10×10 signature at scale 1 centered in the
preview, a 200×100 target page receives the rectangle origin `(90, 45)`,
whereas a centered 10-wide rectangle on a 200-wide page needs
`x = (200 - 10)/2 = 95`: the placement is not centered on a target page
whose size differs from the reference page. -/
theorem centered_placement_counterexample :
    signaturePlacement 100 100
        (centeredDragPos 100 100 (visualWidth 10 1 100 100)
          (visualHeight (visualWidth 10 1 100 100) 10 10)).1
        (centeredDragPos 100 100 (visualWidth 10 1 100 100)
          (visualHeight (visualWidth 10 1 100 100) 10 10)).2
        10 1 200 100
      = (90, 45)
    ∧ (90 : ℚ) ≠ (200 - 10 * 1) / 2 := by
  constructor
  · norm_num [signaturePlacement, centeredDragPos, visualWidth, visualHeight]
  · norm_num

/-- C5 (amended). A drag position centered in the preview (pointer at the
canvas center, position offset by half the visual footprint) produces a
draw rectangle centered on target pages whose size equals the previewed
reference page; on the reference-sized page, `px = (Wt - aw)/2` and
`py = (Ht - ah)/2`.  (For target pages of a different size the rectangle
is in general not centered; see the counterexample.) -/
theorem centered_placement_on_reference (c refW refH sigW sigH s : ℚ)
    (hc : c ≠ 0) (hrw : refW ≠ 0) (hrh : refH ≠ 0) (hsw : sigW ≠ 0) :
    signaturePlacement (c * refW) (c * refH)
        (centeredDragPos (c * refW) (c * refH)
          (visualWidth sigW s (c * refW) refW)
          (visualHeight (visualWidth sigW s (c * refW) refW) sigW sigH)).1
        (centeredDragPos (c * refW) (c * refH)
          (visualWidth sigW s (c * refW) refW)
          (visualHeight (visualWidth sigW s (c * refW) refW) sigW sigH)).2
        sigH s refW refH
      = ((refW - sigW * s) / 2, (refH - sigH * s) / 2) := by
  simp only [signaturePlacement, centeredDragPos, visualWidth, visualHeight,
    Prod.mk.injEq]
  constructor
  · field_simp
    ring
  · field_simp
    ring

/-- Witness for C5 (amended): a 100×50 reference page at canvas scale 1
with a 10×5 signature at scale 2 gives the centered rectangle
`((100 - 20)/2, (50 - 10)/2)` on the reference-sized target page. -/
theorem centered_placement_on_reference_witness :
    signaturePlacement (1 * 100) (1 * 50)
        (centeredDragPos (1 * 100) (1 * 50)
          (visualWidth 10 2 (1 * 100) 100)
          (visualHeight (visualWidth 10 2 (1 * 100) 100) 10 5)).1
        (centeredDragPos (1 * 100) (1 * 50)
          (visualWidth 10 2 (1 * 100) 100)
          (visualHeight (visualWidth 10 2 (1 * 100) 100) 10 5)).2
        5 2 100 50
      = ((100 - 10 * 2) / 2, (50 - 5 * 2) / 2) :=
  centered_placement_on_reference 1 100 50 10 5 2
    (by norm_num) (by norm_num) (by norm_num) (by norm_num)

/-- One axis of the clamp in `handleMouseMove`: first the lower bound
(`if x < 0 then 0`), then the upper bound
(`if x + len > bound then bound - len`), in that order. -/
def clampAxis (raw len bound : ℚ) : ℚ :=
  if (if raw < 0 then 0 else raw) + len > bound then bound - len
  else if raw < 0 then 0 else raw

/-- The stored drag position computed by `handleMouseMove` from a pointer
position in canvas coordinates: the pointer is offset by half the visual
footprint and each axis is clamped. -/
def handleMouseMove (clientX clientY vW vH W H : ℚ) : ℚ × ℚ :=
  (clampAxis (clientX - vW / 2) vW W, clampAxis (clientY - vH / 2) vH H)

lemma clampAxis_add_le (raw len bound : ℚ) : clampAxis raw len bound + len ≤ bound := by
  rw [clampAxis]
  split_ifs <;> linarith

lemma clampAxis_nonneg (raw len bound : ℚ) (h : len ≤ bound) :
    0 ≤ clampAxis raw len bound := by
  rw [clampAxis]
  split_ifs <;> linarith

/-- C9 (amended). The clamp of `handleMouseMove` always forces the right
and bottom edges inside the preview (`x + vW ≤ W` and `y + vH ≤ H`, for
every pointer position); when the visual footprint fits inside the preview
(`vW ≤ W` and `vH ≤ H`) the stored position additionally satisfies
`0 ≤ x` and `0 ≤ y`, so the whole footprint stays within
`[0, W] × [0, H]`.  (When the footprint is larger than the preview the
second clamp drives the coordinate negative; see the counterexample.) -/
theorem clamp_footprint_bounds (clientX clientY vW vH W H : ℚ) :
    ((handleMouseMove clientX clientY vW vH W H).1 + vW ≤ W
      ∧ (handleMouseMove clientX clientY vW vH W H).2 + vH ≤ H)
    ∧ (vW ≤ W → vH ≤ H →
        0 ≤ (handleMouseMove clientX clientY vW vH W H).1
        ∧ 0 ≤ (handleMouseMove clientX clientY vW vH W H).2
        ∧ (handleMouseMove clientX clientY vW vH W H).1 + vW ≤ W
        ∧ (handleMouseMove clientX clientY vW vH W H).2 + vH ≤ H) := by
  refine ⟨⟨clampAxis_add_le _ _ _, clampAxis_add_le _ _ _⟩, fun hw hh => ?_⟩
  exact ⟨clampAxis_nonneg _ _ _ hw, clampAxis_nonneg _ _ _ hh,
    clampAxis_add_le _ _ _, clampAxis_add_le _ _ _⟩

/-- Counterexample to C9 as stated: with a 150×150 footprint on a 100×100
preview, the clamp produces the stored coordinate `x = -50 < 0`, so the
claimed invariant `0 ≤ x` does not hold when the footprint exceeds the
preview. -/
theorem clamp_negative_counterexample :
    (handleMouseMove 0 0 150 150 100 100).1 = -50
    ∧ ¬ (0 ≤ (handleMouseMove 0 0 150 150 100 100).1) := by
  constructor
  · norm_num [handleMouseMove, clampAxis]
  · norm_num [handleMouseMove, clampAxis]

/-- Witness for C9 (amended): with a 30×40 footprint on a 100×200 preview
and the pointer far outside, the stored position keeps the footprint
inside the preview on both axes. -/
theorem clamp_footprint_bounds_witness :
    0 ≤ (handleMouseMove 500 (-500) 30 40 100 200).1
    ∧ 0 ≤ (handleMouseMove 500 (-500) 30 40 100 200).2
    ∧ (handleMouseMove 500 (-500) 30 40 100 200).1 + 30 ≤ 100
    ∧ (handleMouseMove 500 (-500) 30 40 100 200).2 + 40 ≤ 200 :=
  (clamp_footprint_bounds 500 (-500) 30 40 100 200).2 (by norm_num) (by norm_num)

/-- The stem extraction of `handleSign`
(`file.name.replace(/\.[^/.]+$/, "")`): the final dot-extension is removed
when the trailing run after the last dot is nonempty and free of `.` and
`/`; otherwise the name is unchanged. -/
def stripExt (s : List Char) : List Char :=
  let r := s.reverse
  let pre := r.takeWhile (fun c => !(c == '.') && !(c == '/'))
  match r.drop pre.length with
  | '.' :: rest => if pre = [] then s else rest.reverse
  | _ => s

/-- The per-document output name of `handleSign`:
`<original-stem>_firmado.pdf`. -/
def stampedName (s : List Char) : List Char := stripExt s ++ "_firmado.pdf".data

/-- The fixed archive name used when several documents are stamped. -/
def zipDefaultName : List Char := "documentos_firmados.zip".data

/-- The shape of the stamping output of `handleSign`: either one raw
document byte stream with its name, or one archive with its fixed name and
its named entries. -/
inductive SignOutput where
  | single (name : List Char)
  | archive (archiveName : List Char) (entries : List (List Char))
  deriving DecidableEq

/-- The output branch of `handleSign`: no documents produce no output; one
document produces a single named stream; several documents produce one
archive with the fixed default name holding one entry per document. -/
def handleSignOutput : List (List Char) → Option SignOutput
  | [] => none
  | [n] => some (SignOutput.single (stampedName n))
  | ns => some (SignOutput.archive zipDefaultName (ns.map stampedName))

/-- C6. If exactly one document is stamped, the output is a single raw
document stream named by the `<original-stem>_firmado.pdf` rule; if `M > 1`
documents are stamped, the output is a single archive with the fixed
default name containing exactly `M` entries, one per document in order,
each named by the same rule. -/
theorem sign_output_shape (names : List (List Char)) :
    (∀ n, names = [n] →
      handleSignOutput names = some (SignOutput.single (stampedName n)))
    ∧ (2 ≤ names.length →
      handleSignOutput names
          = some (SignOutput.archive zipDefaultName (names.map stampedName))
        ∧ (names.map stampedName).length = names.length) := by
  constructor
  · intro n hn
    subst hn
    rfl
  · intro h2
    cases names with
    | nil => simp at h2
    | cons a t =>
      cases t with
      | nil => simp at h2
      | cons b m => exact ⟨rfl, by simp⟩

/-- Witness for C6: stamping one document named `a.pdf` yields a single
stream named `a_firmado.pdf`; stamping three documents yields the archive
`documentos_firmados.zip` with exactly three entries named by the same
rule. -/
theorem sign_output_shape_witness :
    handleSignOutput ["a.pdf".data]
        = some (SignOutput.single (stampedName "a.pdf".data))
    ∧ stampedName "a.pdf".data = "a_firmado.pdf".data
    ∧ handleSignOutput ["a.pdf".data, "b.pdf".data, "c.pdf".data]
        = some (SignOutput.archive zipDefaultName
            (["a.pdf".data, "b.pdf".data, "c.pdf".data].map stampedName))
    ∧ (["a.pdf".data, "b.pdf".data, "c.pdf".data].map stampedName).length = 3 :=
  ⟨(sign_output_shape ["a.pdf".data]).1 "a.pdf".data rfl,
   by decide,
   ((sign_output_shape ["a.pdf".data, "b.pdf".data, "c.pdf".data]).2 (by decide)).1,
   ((sign_output_shape ["a.pdf".data, "b.pdf".data, "c.pdf".data]).2 (by decide)).2⟩
